import Mathlib

/-!
Verification development for the `anchor` validation library
(`src/index.js`).  JavaScript runtime values are embedded as the
mutual inductive types `JSVal` / `JSArr` / `JSObj`; JS objects keep
their fields in insertion order, as JS string-keyed objects do.
Fallible JS code (statements that can throw) is embedded with
`Except String`, the `.error` case standing for a thrown exception.

The repository ships only `src/index.js`; the modules it requires,
`./lib/match.js` (the deep matcher and the rule evaluator) and
`./lib/rules` (the built-in type registry), are not part of the
source tree.  Definitions for those two modules are modelled from
the specification and are marked `Modelled from the spec:` in their
doc comments.  Everything else is translated directly from
`src/index.js`.
-/

mutual
/-- A JavaScript runtime value.  `func` is an opaque callable tagged by
an identifier; `undef` is `undefined`.  Numbers are modelled as
integers. -/
inductive JSVal where
  | null
  | undef
  | bool (b : Bool)
  | num (n : Int)
  | str (s : String)
  | arr (elems : JSArr)
  | obj (fields : JSObj)
  | func (id : Nat)

/-- A JS array of values. -/
inductive JSArr where
  | nil
  | cons (hd : JSVal) (tl : JSArr)

/-- The fields of a JS object, in insertion order. -/
inductive JSObj where
  | nil
  | cons (k : String) (v : JSVal) (tl : JSObj)
end

deriving instance DecidableEq for JSVal, JSArr, JSObj

deriving instance DecidableEq for Except

/-- Property lookup `o[k]`: the value of the first field with key `k`. -/
def JSObj.lookup : JSObj → String → Option JSVal
  | .nil, _ => none
  | .cons k v tl, key => if k == key then some v else tl.lookup key

/-- Does the object have a field named `k`? -/
def JSObj.hasKey (o : JSObj) (k : String) : Bool :=
  (o.lookup k).isSome

/-- JS property assignment `o[k] = v`: replaces the value in place when
the key already exists (keeping the field position), else appends. -/
def JSObj.assign : JSObj → String → JSVal → JSObj
  | .nil, key, v => .cons key v .nil
  | .cons k w tl, key, v =>
    if k == key then .cons k v tl else .cons k w (tl.assign key v)

/-- lodash `extend(dst, src)`: assign every field of `src` onto `dst`
in order. -/
def JSObj.extend : JSObj → JSObj → JSObj
  | dst, .nil => dst
  | dst, .cons k v tl => (dst.assign k v).extend tl

/-- The keys of an object, in order. -/
def JSObj.keys : JSObj → List String
  | .nil => []
  | .cons k _ tl => k :: tl.keys

/-- View an object as an association list. -/
def JSObj.toList : JSObj → List (String × JSVal)
  | .nil => []
  | .cons k v tl => (k, v) :: tl.toList

/-- Build an object from an association list. -/
def JSObj.ofList : List (String × JSVal) → JSObj
  | [] => .nil
  | (k, v) :: tl => .cons k v (JSObj.ofList tl)

/-- View a JS array as a list of values. -/
def JSArr.toList : JSArr → List JSVal
  | .nil => []
  | .cons v tl => v :: tl.toList

/-- Build a JS array from a list of values. -/
def JSArr.ofList : List JSVal → JSArr
  | [] => .nil
  | v :: tl => .cons v (JSArr.ofList tl)

/-- JS truthiness of a value (`if (x)`). -/
def truthy : JSVal → Bool
  | .null => false
  | .undef => false
  | .bool b => b
  | .num n => n != 0
  | .str s => s != ""
  | .arr _ => true
  | .obj _ => true
  | .func _ => true

/-- lodash `isFunction`. -/
def isFunction : JSVal → Bool
  | .func _ => true
  | _ => false

/-- lodash `isObject`: true for objects, arrays and functions. -/
def isObjectJS : JSVal → Bool
  | .obj _ => true
  | .arr _ => true
  | .func _ => true
  | _ => false

/-- lodash `isString`. -/
def isStringJS : JSVal → Bool
  | .str _ => true
  | _ => false

mutual
/-- JS `String(v)` conversion (and `v.toString()` for non-null values). -/
def jsStr : JSVal → String
  | .null => "null"
  | .undef => "undefined"
  | .bool b => cond b "true" "false"
  | .num n => toString n
  | .str s => s
  | .arr xs => joinElems xs
  | .obj _ => "[object Object]"
  | .func _ => "function"

/-- `Array.prototype.toString` is `join(",")`; `null` and `undefined`
elements become the empty string. -/
def joinElems : JSArr → String
  | .nil => ""
  | .cons x tl =>
    (match x with
     | .null => ""
     | .undef => ""
     | y => jsStr y) ++
    (match tl with
     | .nil => ""
     | t => "," ++ joinElems t)
end

/-- JS `v.toString()`: throws a TypeError (modelled as `none`) on
`null` and `undefined`, else equals `String(v)`. -/
def jsTopToString : JSVal → Option String
  | .null => none
  | .undef => none
  | v => some (jsStr v)

/-- A path segment of a validation error. -/
inductive PathSeg where
  | idx (i : Nat)
  | attr (a : String)
deriving DecidableEq

/-- One reported violation: the failing rule, the offending value and
the path to it (spec §3, ValidationError wire shape). -/
structure VError where
  rule : String
  value : JSVal
  path : List PathSeg
deriving DecidableEq

/-- Tag an error with one more leading path segment. -/
def VError.push (s : PathSeg) (e : VError) : VError :=
  ⟨e.rule, e.value, s :: e.path⟩

/-- Modelled from the spec: the built-in leaf type predicates of
`./lib/rules` (absent from `src/`), §4.1.  Each takes one value and
returns pass/fail; none recurse.  Only leaves the claims touch are
included; resolving an unregistered name gives `none`. -/
def Anchor.rules : String → Option (JSVal → Bool)
  | "string" => some isStringJS
  | "number" => some (fun v => match v with | .num _ => true | _ => false)
  | "integer" => some (fun v => match v with | .num _ => true | _ => false)
  | "boolean" => some (fun v => match v with | .bool _ => true | _ => false)
  | "array" => some (fun v => match v with | .arr _ => true | _ => false)
  | "object" => some (fun v => match v with | .obj _ => true | _ => false)
  | _ => none

/-- Membership of a value in a JS array (strict equality). -/
def inArr (v : JSVal) : JSArr → Bool
  | .nil => false
  | .cons x tl => v == x || inArr v tl

/-- Modelled from the spec: the rule evaluator of `./lib/match.js`
(absent from `src/`), §4.3.  Evaluates one non-type constraint;
`none` means the rule name is not registered.  Numeric rules require a
numeric value (§4.3 recommended policy). -/
def Anchor.ruleOk (v : JSVal) (rule : String) (arg : JSVal) : Option Bool :=
  match rule with
  | "required" =>
    some (if truthy arg then !(v == .null || v == .undef || v == .str "") else true)
  | "in" =>
    some (match arg with
          | .arr xs => inArr v xs
          | _ => false)
  | "min" => some (match v, arg with | .num n, .num m => decide (m ≤ n) | _, _ => false)
  | "max" => some (match v, arg with | .num n, .num m => decide (n ≤ m) | _, _ => false)
  | "equals" => some (v == arg)
  | _ => none

/-- Modelled from the spec: `Anchor.match.rule` of `./lib/match.js`
(absent from `src/`): a rule failure yields one violation carrying the
rule name; an unknown rule name is reported as a violation rather than
thrown (§4.3 recommended policy). -/
def Anchor.matchRule (v : JSVal) (rule : String) (arg : JSVal) : List VError :=
  match Anchor.ruleOk v rule arg with
  | some true => []
  | some false => [⟨rule, v, []⟩]
  | none => [⟨rule, v, []⟩]

/-- Modelled from the spec: the non-type part of matching a rule set
(§4.2 step 5): every key other than `type` invokes the rule evaluator,
in declaration order. -/
def Anchor.matchRSRules (v : JSVal) : JSObj → List VError
  | .nil => []
  | .cons k arg tl =>
    (if k == "type" then [] else Anchor.matchRule v k arg) ++ Anchor.matchRSRules v tl

mutual
/-- Modelled from the spec: `Anchor.match.type` of `./lib/match.js`
(absent from `src/`), §4.2.  Deep-matches a value against a type
descriptor.  Beyond `maxDepth` nesting the match is treated as
satisfied (step 1); a string descriptor is a registered leaf type, an
unregistered name failing as a type error; a nonempty array descriptor
matches a sequence elementwise against its first element (step 3); an
object descriptor requires an object value and matches each declared
attribute against its rule set at the next depth (step 4, an attribute
descriptor that is not an object being taken as a bare descriptor).
Descriptor shapes outside the spec grammar are treated as `Any`. -/
def Anchor.matchType (v d : JSVal) (depth maxDepth : Nat) : List VError :=
  if h : depth > maxDepth then []
  else
    match d with
    | .str name =>
      (match Anchor.rules name with
       | some p => if p v then [] else [⟨"type", v, []⟩]
       | none => [⟨"type", v, []⟩])
    | .arr .nil => (match v with | .arr _ => [] | _ => [⟨"type", v, []⟩])
    | .arr (.cons inner _) =>
      (match v with
       | .arr vs => Anchor.matchElems vs 0 inner (depth + 1) maxDepth
       | _ => [⟨"type", v, []⟩])
    | .obj attrs =>
      (match v with
       | .obj fields => Anchor.matchAttrs fields attrs (depth + 1) maxDepth
       | _ => [⟨"type", v, []⟩])
    | _ => []
termination_by (maxDepth + 1 - depth, 0, 0)

/-- Modelled from the spec (§4.2 step 3): each element is matched
against the inner descriptor and its errors are tagged with the
element index; batches are concatenated in index order. -/
def Anchor.matchElems (vs : JSArr) (i : Nat) (inner : JSVal) (depth maxDepth : Nat) :
    List VError :=
  match vs with
  | .nil => []
  | .cons e tl =>
    (Anchor.matchType e inner depth maxDepth).map (VError.push (.idx i)) ++
    Anchor.matchElems tl (i + 1) inner depth maxDepth
termination_by (maxDepth + 1 - depth, 3, sizeOf vs)

/-- Modelled from the spec (§4.2 step 4): each declared attribute of an
object schema is matched against its rule set, errors tagged with the
attribute name, concatenated in declaration order. -/
def Anchor.matchAttrs (fields attrs : JSObj) (depth maxDepth : Nat) : List VError :=
  match attrs with
  | .nil => []
  | .cons a rsd tl =>
    (match rsd with
     | .obj entries =>
       Anchor.matchRuleSet ((fields.lookup a).getD .undef) entries depth maxDepth
     | d =>
       Anchor.matchType ((fields.lookup a).getD .undef) d depth maxDepth).map
        (VError.push (.attr a)) ++
    Anchor.matchAttrs fields tl depth maxDepth
termination_by (maxDepth + 1 - depth, 3, sizeOf attrs)

/-- Modelled from the spec (§4.2 step 5): matching a full rule set
yields the `type` errors first, then the other rules in declaration
order. -/
def Anchor.matchRuleSet (v : JSVal) (entries : JSObj) (depth maxDepth : Nat) :
    List VError :=
  Anchor.matchRSType v entries depth maxDepth ++ Anchor.matchRSRules v entries
termination_by (maxDepth + 1 - depth, 2, 0)

/-- The `type` key of a rule set drives the descriptor match (first
`type` entry; a JS object has at most one). -/
def Anchor.matchRSType (v : JSVal) (entries : JSObj) (depth maxDepth : Nat) :
    List VError :=
  match entries with
  | .nil => []
  | .cons k d tl =>
    if k == "type" then Anchor.matchType v d depth maxDepth
    else Anchor.matchRSType v tl depth maxDepth
termination_by (maxDepth + 1 - depth, 1, sizeOf entries)
end

/-- The accumulator loop of `Anchor.prototype.to` (src/index.js lines
56-69): iterate the ruleset keys in declaration order; the `type` key
concatenates `Anchor.match.type(this.data, ruleset.type)` (default
depth 0, maxDepth 50) onto the error accumulator, every other key
concatenates `Anchor.match.rule(this.data, rule, ruleset[rule])`. -/
def Anchor.toErrorsLoop (data : JSVal) : JSObj → List VError → List VError
  | .nil, errors => errors
  | .cons rule arg tl, errors =>
    Anchor.toErrorsLoop data tl
      (if rule == "type" then errors ++ Anchor.matchType data arg 0 50
       else errors ++ Anchor.matchRule data rule arg)

/-- The full error list computed by `Anchor.prototype.to`. -/
def Anchor.toErrors (data : JSVal) (ruleset : JSObj) : List VError :=
  Anchor.toErrorsLoop data ruleset []

/-- `Anchor.prototype.to` (src/index.js lines 47-79): returns the error
list when it is nonempty, else `false` (modelled as `none`). -/
def Anchor.to (data : JSVal) (ruleset : JSObj) : Option (List VError) :=
  let errors := Anchor.toErrors data ruleset
  if errors.isEmpty then none else some errors

/-- An Anchor facade instance: a wrapped entity. -/
structure AnchorF where
  data : JSVal
deriving DecidableEq

/-- The exported constructor `anchor(entity)` = `new Anchor(entity)`
(src/index.js lines 15-33): throws on function entities, else wraps
the entity unchanged in the `data` field. -/
def anchorCtor (entity : JSVal) : Except String AnchorF :=
  if isFunction entity then .error "Anchor does not support functions yet!"
  else .ok ⟨entity⟩

/-- The enumerable own properties seen by `for (var attr in name)`:
the fields of an object, the indices of an array, nothing for other
values. -/
def enumProps : JSVal → JSObj
  | .obj fs => fs
  | .arr xs => arrProps 0 xs
  | _ => .nil
where
  arrProps (i : Nat) : JSArr → JSObj
    | .nil => .nil
    | .cons v tl => .cons (toString i) v (arrProps (i + 1) tl)

/-- The first field of an object whose value is not a function. -/
def firstNonFunc : JSObj → Option (String × JSVal)
  | .nil => none
  | .cons k v tl => if isFunction v then firstNonFunc tl else some (k, v)

/-- The string read out of a `.str`; irrelevant elsewhere. -/
def strOf : JSVal → String
  | .str s => s
  | _ => ""

/-- `Anchor.prototype.define` (src/index.js lines 169-198), acting on
the shared rules dictionary (`Anchor.prototype.rules`, a mutable JS
object mapping type names to predicates), which it returns updated;
`.error` models the thrown `Definition error`.  When `name` is an
object (lodash `isObject`: objects, arrays, functions) the bulk form
runs: every enumerated value must be a function, else the first
offender is named in the error; otherwise a function definition under
a string name is assigned; anything else throws. -/
def Anchor.define (name : JSVal) (definition : Option JSVal) (rules : JSObj) :
    Except String JSObj :=
  if isObjectJS name then
    match firstNonFunc (enumProps name) with
    | some p => .error ("Definition error: \"" ++ p.1 ++ "\" does not have a definition")
    | none => .ok (rules.extend (enumProps name))
  else if isFunction ((definition.getD .undef)) && isStringJS name then
    .ok (rules.assign (strOf name) (definition.getD .undef))
  else .error ("Definition error: \"" ++ jsStr name ++ "\" is not a valid definition.")

/-- List-level JS property lookup (for maps kept outside `JSVal`). -/
def lookupL {α : Type} (o : List (String × α)) (k : String) : Option α :=
  (o.find? (fun p => p.1 == k)).map (fun p => p.2)

/-- List-level JS property assignment: replace in place when the key
exists, else append. -/
def assignL {α : Type} (o : List (String × α)) (k : String) (v : α) :
    List (String × α) :=
  if o.any (fun p => p.1 == k) then
    o.map (fun p => if p.1 == k then (k, v) else p)
  else o ++ [(k, v)]

/-- The validation handler built by `new Validator()` (src/index.js
line 246): its `validations` object, one sanitized ruleset per
attribute. -/
structure Validator where
  validations : List (String × JSObj)
deriving DecidableEq

/-- The schema-only property names skipped by the initializer, matched
by the anchored regex
`^(defaultsTo|primaryKey|autoIncrement|unique|index|columnName)$`
(src/index.js line 290). -/
def schemaOnlyKey (p : String) : Bool :=
  p == "defaultsTo" || p == "primaryKey" || p == "autoIncrement" ||
  p == "unique" || p == "index" || p == "columnName"

/-- The inner property loop of the initializer (src/index.js lines
289-299): skip schema-only keys, rewrite `enum` to the `in` rule with
the same argument, copy everything else. -/
def buildValidationLoop : JSObj → JSObj → JSObj
  | .nil, acc => acc
  | .cons prop v tl, acc =>
    buildValidationLoop tl
      (if schemaOnlyKey prop then acc
       else if prop == "enum" then acc.assign "in" v
       else acc.assign prop v)

/-- The sanitized ruleset built for one attribute definition. -/
def buildValidation (attrDef : JSObj) : JSObj :=
  buildValidationLoop attrDef .nil

/-- `Validator.prototype.initialize` (src/index.js lines 278-301),
named `buildValidations` here: builds the per-attribute validation
map.  (Its `anchor.define(types)` registry side effect is modelled by
`Anchor.define`.) -/
def Validator.buildValidations (attrs : List (String × JSObj)) : Validator :=
  ⟨attrs.foldl (fun vs p => assignL vs p.1 (buildValidation p.2)) []⟩

/-- Lines 336-337 of `src/index.js`: `values[attr]`, with `undefined`
(and absence) coerced to `null`. -/
def coerceVal : Option JSVal → JSVal
  | none => .null
  | some .undef => .null
  | some v => v

/-- Line 354, `anchor(value).to(requirements.data)`: the Anchor
constructor throws on function values; otherwise the matcher result is
recorded, `false` (no errors) giving the empty list. -/
def Validator.runMatcher (value : JSVal) (rs : JSObj) : Except String (List VError) :=
  match anchorCtor value with
  | .error e => .error e
  | .ok f => .ok ((Anchor.to f.data rs).getD [])

/-- The inner `validate` closure of `Validator.prototype.validate`
(src/index.js lines 329-361), checking one attribute.  `raw` is
`values[attr]` (`none` when absent); an `undefined` value is coerced
to `null` (line 337).  Not-required empty values and `text`-typed
attributes short-circuit with no error; a required `boolean` attribute
accepts a value whose `toString()` is `true` or `false`, the
`toString()` call throwing a TypeError on `null`; everything else runs
the Anchor matcher.  The result is the violation list recorded for the
attribute (`[]` when none), `.error` modelling a throw. -/
def Validator.validateAttr (curValidation : JSObj) (raw : Option JSVal) :
    Except String (List VError) :=
  let value : JSVal := coerceVal raw
  if !truthy ((curValidation.lookup "required").getD .undef) &&
      (value == JSVal.null || value == JSVal.str "") then .ok []
  else if curValidation.lookup "type" == some (.str "text") then .ok []
  else if truthy ((curValidation.lookup "required").getD .undef) &&
      curValidation.lookup "type" == some (.str "boolean") then
    match jsTopToString value with
    | none => .error "TypeError: Cannot read property toString of null"
    | some s =>
      if s == "true" || s == "false" then .ok []
      else Validator.runMatcher value curValidation
  else Validator.runMatcher value curValidation

/-- The attribute list `Validator.prototype.validate` iterates: all
declared attributes, or their intersection (in declaration order,
underscore `_.intersection`) with the keys of `values` when
`presentOnly` is truthy (src/index.js lines 318-327). -/
def Validator.selectedAttrs (V : Validator) (values : JSObj) (presentOnly : Bool) :
    List String :=
  let ks := V.validations.map Prod.fst
  if presentOnly then ks.filter (fun a => values.hasKey a) else ks

/-- The `async.each` fan-out of `Validator.prototype.validate` (line
364): with a synchronous iteratee the attributes are processed in
order; a throw propagates immediately (the final callback is then
never reached); otherwise each attribute with a nonempty violation
list is recorded in the `errors` map in processing order. -/
def Validator.runAll (V : Validator) (values : JSObj) :
    List String → Except String (List (String × List VError))
  | [] => .ok []
  | a :: rest =>
    match Validator.validateAttr ((lookupL V.validations a).getD .nil)
        (values.lookup a) with
    | .error e => .error e
    | .ok errs =>
      match Validator.runAll V values rest with
      | .error e => .error e
      | .ok m => .ok (if errs.isEmpty then m else (a, errs) :: m)

/-- `Validator.prototype.validate` (src/index.js lines 315-368).  The
single final-callback invocation is the returned value: `.ok none`
models `cb()` (success), `.ok (some m)` models `cb(noErrObj)` where
`noErrObj` maps `ValidationError` to the error map `m`, and `.error`
models an exception thrown out of `validate` (the callback is then
never invoked). -/
def Validator.validate (V : Validator) (values : JSObj) (presentOnly : Bool) :
    Except String (Option (List (String × List VError))) :=
  match Validator.runAll V values (V.selectedAttrs values presentOnly) with
  | .error e => .error e
  | .ok errs => .ok (if errs.isEmpty then none else some errs)

/-- A rule-set entry of the heap-based schema graph: the reserved
`type` key holding the address of a descriptor node, or an ordinary
rule. -/
inductive HEntry where
  | typeKey (addr : Nat)
  | rule (name : String) (arg : JSVal)
deriving DecidableEq

/-- One descriptor node of the heap-based schema graph. -/
inductive HNode where
  | primitive (name : String)
  | arrayOf (addr : Nat)
  | objectSchema (attrs : List (String × List HEntry))
  | any
deriving DecidableEq

mutual
/-- Modelled from the spec: `Anchor.match` of `./lib/match.js` (absent
from `src/`) over possibly cyclic descriptor graphs, §4.2 and the §8
depth-bound property.  JS descriptors are heap objects and may
reference themselves (self-associations); the graph is embedded as a
finite address-indexed store of nodes in which children are referenced
by address, so a node can reach itself.  Matching counts one depth
unit per descent into `arrayOf` or `objectSchema` and, past
`maxDepth`, treats the match as satisfied (step 1); `reg` is the
(leaf) type-registry snapshot. -/
def HeapM.matchType (hp : List HNode) (reg : String → JSVal → Bool) (v : JSVal)
    (addr depth maxDepth : Nat) : List VError :=
  if h : depth > maxDepth then []
  else
    match hp[addr]? with
    | none => []
    | some (.primitive name) => if reg name v then [] else [⟨"type", v, []⟩]
    | some (.arrayOf inner) =>
      (match v with
       | .arr vs => HeapM.matchElems hp reg vs 0 inner (depth + 1) maxDepth
       | _ => [⟨"type", v, []⟩])
    | some (.objectSchema attrs) =>
      (match v with
       | .obj fields => HeapM.matchAttrs hp reg fields attrs (depth + 1) maxDepth
       | _ => [⟨"type", v, []⟩])
    | some .any => []
termination_by (maxDepth + 1 - depth, 0, 0)

/-- Elementwise descent of the heap matcher (spec §4.2 step 3). -/
def HeapM.matchElems (hp : List HNode) (reg : String → JSVal → Bool) (vs : JSArr)
    (i inner depth maxDepth : Nat) : List VError :=
  match vs with
  | .nil => []
  | .cons e tl =>
    (HeapM.matchType hp reg e inner depth maxDepth).map (VError.push (.idx i)) ++
    HeapM.matchElems hp reg tl (i + 1) inner depth maxDepth
termination_by (maxDepth + 1 - depth, 3, sizeOf vs)

/-- Attributewise descent of the heap matcher (spec §4.2 step 4). -/
def HeapM.matchAttrs (hp : List HNode) (reg : String → JSVal → Bool) (fields : JSObj)
    (attrs : List (String × List HEntry)) (depth maxDepth : Nat) : List VError :=
  match attrs with
  | [] => []
  | (a, rs) :: tl =>
    (HeapM.matchRuleSet hp reg ((fields.lookup a).getD .undef) rs depth maxDepth).map
      (VError.push (.attr a)) ++
    HeapM.matchAttrs hp reg fields tl depth maxDepth
termination_by (maxDepth + 1 - depth, 3, sizeOf attrs)

/-- Rule-set match of the heap matcher (spec §4.2 step 5): type errors
first, then the other rules in declaration order. -/
def HeapM.matchRuleSet (hp : List HNode) (reg : String → JSVal → Bool) (v : JSVal)
    (rs : List HEntry) (depth maxDepth : Nat) : List VError :=
  HeapM.matchRSType hp reg v rs depth maxDepth ++
  (rs.map (fun e => match e with
    | .rule r arg => Anchor.matchRule v r arg
    | _ => [])).flatten
termination_by (maxDepth + 1 - depth, 2, 0)

/-- The first `type` entry of a heap rule set drives the descriptor
match. -/
def HeapM.matchRSType (hp : List HNode) (reg : String → JSVal → Bool) (v : JSVal)
    (rs : List HEntry) (depth maxDepth : Nat) : List VError :=
  match rs with
  | [] => []
  | .typeKey a :: _ => HeapM.matchType hp reg v a depth maxDepth
  | _ :: tl => HeapM.matchRSType hp reg v tl depth maxDepth
termination_by (maxDepth + 1 - depth, 1, sizeOf rs)
end

/-- One key of `Anchor.prototype.to`: the errors contributed by that
key when the loop reaches it. -/
def Anchor.entryErrors (data : JSVal) (rule : String) (arg : JSVal) : List VError :=
  if rule == "type" then Anchor.matchType data arg 0 50
  else Anchor.matchRule data rule arg

/-- The per-key error batches of a ruleset, concatenated in
declaration order. -/
def Anchor.flatErrors (data : JSVal) : JSObj → List VError
  | .nil => []
  | .cons r a tl => Anchor.entryErrors data r a ++ Anchor.flatErrors data tl

/-- Concatenation of two field lists. -/
def JSObj.app : JSObj → JSObj → JSObj
  | .nil, o => o
  | .cons k v tl, o => .cons k v (tl.app o)

/-- The sanitized keys an attribute definition contributes to its
validation object: schema-only keys dropped, `enum` renamed to `in`. -/
def keptKeys (o : JSObj) : List String :=
  o.toList.filterMap (fun p =>
    if schemaOnlyKey p.1 then none
    else some (if p.1 = "enum" then "in" else p.1))

/-- The aggregated error map `Validator.prototype.validate` builds when
no attribute check throws: each checked attribute with a nonempty
violation list, in processing order. -/
def Validator.expectedMap (V : Validator) (values : JSObj) (attrs : List String) :
    List (String × List VError) :=
  attrs.filterMap (fun a =>
    match Validator.validateAttr ((lookupL V.validations a).getD .nil)
        (values.lookup a) with
    | .ok [] => none
    | .ok errs => some (a, errs)
    | .error _ => none)

/-- Structural induction on object field lists (the mutual inductive
blocks the default eliminator). -/
@[induction_eliminator]
def JSObj.inductionOn {P : JSObj → Prop} (o : JSObj) (nil : P .nil)
    (cons : ∀ k v tl, P tl → P (.cons k v tl)) : P o :=
  match o with
  | .nil => nil
  | .cons k v tl => cons k v tl (JSObj.inductionOn tl nil cons)

/-- Structural induction on JS arrays. -/
@[induction_eliminator]
def JSArr.inductionOn {P : JSArr → Prop} (a : JSArr) (nil : P .nil)
    (cons : ∀ hd tl, P tl → P (.cons hd tl)) : P a :=
  match a with
  | .nil => nil
  | .cons hd tl => cons hd tl (JSArr.inductionOn tl nil cons)

lemma Anchor.toErrorsLoop_append (data : JSVal) (rs : JSObj) :
    ∀ errors : List VError,
      Anchor.toErrorsLoop data rs errors = errors ++ Anchor.flatErrors data rs := by
  induction rs with
  | nil => intro errors; simp [Anchor.toErrorsLoop, Anchor.flatErrors]
  | cons r a tl ih =>
    intro errors
    cases hr : (r == "type") <;>
      simp [Anchor.toErrorsLoop, hr, ih, Anchor.flatErrors, Anchor.entryErrors]

/-- C2 (amended): `Anchor.prototype.to` concatenates each ruleset key's
errors in the ruleset's declaration order; in particular, when `type`
is the first declared key, the `type` errors come first, followed by
the remaining keys' errors in declaration order. -/
theorem to_concats_in_declaration_order (data d : JSVal) (rest : JSObj) :
    Anchor.toErrors data (.cons "type" d rest) =
      Anchor.matchType data d 0 50 ++ Anchor.flatErrors data rest := by
  simp [Anchor.toErrors, Anchor.toErrorsLoop, Anchor.toErrorsLoop_append]

/-- C2 counterexample: for the ruleset declaring `in` before `type`,
`Anchor.prototype.to` puts the `in` error before the `type` error, so
the `type` errors do not come first. -/
theorem to_type_not_first_cx :
    Anchor.toErrors (.num 3) (.cons "in" (.arr .nil) (.cons "type" (.str "string") .nil)) =
      [⟨"in", .num 3, []⟩, ⟨"type", .num 3, []⟩] ∧
    Anchor.toErrors (.num 3) (.cons "in" (.arr .nil) (.cons "type" (.str "string") .nil)) ≠
      Anchor.matchType (.num 3) (.str "string") 0 50 ++
        Anchor.matchRule (.num 3) "in" (.arr .nil) := by
  have h1 : Anchor.matchType (.num 3) (.str "string") 0 50 = [⟨"type", .num 3, []⟩] := by
    simp [Anchor.matchType, Anchor.rules, isStringJS]
  refine ⟨?_, ?_⟩
  · simp [Anchor.toErrors, Anchor.toErrorsLoop, h1, Anchor.matchRule, Anchor.ruleOk, inArr]
  · simp [Anchor.toErrors, Anchor.toErrorsLoop, h1, Anchor.matchRule, Anchor.ruleOk, inArr]

/-- C3: for every schema heap — cyclic, self-referential graphs
included — every registry, value and address, once the depth exceeds
`maxDepth` the deep match returns no errors (further nesting is
treated as satisfied); the matcher is a total function on such graphs,
so the match always terminates. -/
theorem heap_match_depth_capped (hp : List HNode) (reg : String → JSVal → Bool)
    (v : JSVal) (addr depth maxDepth : Nat) (h : maxDepth < depth) :
    HeapM.matchType hp reg v addr depth maxDepth = [] := by
  unfold HeapM.matchType
  simp [h]

/-- C3 witness: a self-referential object schema (node 0 references
itself through its attribute rule set) matched just past the default
cap of 50. -/
theorem heap_match_depth_capped_witness :
    HeapM.matchType [HNode.objectSchema [("self", [HEntry.typeKey 0])]]
      (fun _ _ => false) (.obj .nil) 0 51 50 = [] :=
  heap_match_depth_capped _ _ _ _ _ _ (by decide)

lemma Validator.runAll_ok_mem (V : Validator) (values : JSObj) :
    ∀ (attrs : List String) (m : List (String × List VError)),
      Validator.runAll V values attrs = .ok m →
      ∀ p ∈ m, p.1 ∈ attrs ∧
        Validator.validateAttr ((lookupL V.validations p.1).getD .nil)
          (values.lookup p.1) = .ok p.2 ∧
        p.2 ≠ [] := by
  intro attrs
  induction attrs with
  | nil =>
    intro m hm p hp
    simp only [Validator.runAll, Except.ok.injEq] at hm
    subst hm
    simp at hp
  | cons a rest ih =>
    intro m hm p hp
    simp only [Validator.runAll] at hm
    cases hva : Validator.validateAttr ((lookupL V.validations a).getD .nil)
        (values.lookup a) with
    | error e => rw [hva] at hm; cases hm
    | ok errs =>
      rw [hva] at hm
      cases hr : Validator.runAll V values rest with
      | error e => rw [hr] at hm; cases hm
      | ok m2 =>
        rw [hr] at hm
        simp only [Except.ok.injEq] at hm
        subst hm
        by_cases he : errs.isEmpty
        · rw [if_pos he] at hp
          obtain ⟨h1, h2, h3⟩ := ih m2 hr p hp
          exact ⟨List.mem_cons_of_mem _ h1, h2, h3⟩
        · rw [if_neg he] at hp
          rcases List.mem_cons.mp hp with hp | hp
          · subst hp
            refine ⟨List.mem_cons_self _ _, hva, ?_⟩
            simpa [List.isEmpty_iff] using he
          · obtain ⟨h1, h2, h3⟩ := ih m2 hr p hp
            exact ⟨List.mem_cons_of_mem _ h1, h2, h3⟩

lemma Validator.runAll_expected (V : Validator) (values : JSObj) :
    ∀ attrs : List String,
      (∀ a ∈ attrs, ∃ errs,
        Validator.validateAttr ((lookupL V.validations a).getD .nil)
          (values.lookup a) = .ok errs) →
      Validator.runAll V values attrs = .ok (Validator.expectedMap V values attrs) := by
  intro attrs
  induction attrs with
  | nil => intro _; simp [Validator.runAll, Validator.expectedMap]
  | cons a rest ih =>
    intro h
    obtain ⟨errs, hva⟩ := h a (by simp)
    have hrest := ih (fun b hb => h b (List.mem_cons_of_mem _ hb))
    simp only [Validator.runAll, Validator.expectedMap, List.filterMap_cons]
    rw [hva, hrest]
    cases errs with
    | nil => simp [Validator.expectedMap]
    | cons e etl => simp [Validator.expectedMap]

lemma Validator.runAll_complete (V : Validator) (values : JSObj) :
    ∀ (attrs : List String) (m : List (String × List VError)),
      Validator.runAll V values attrs = .ok m →
      ∀ a errs, a ∈ attrs →
        Validator.validateAttr ((lookupL V.validations a).getD .nil)
          (values.lookup a) = .ok errs →
        errs ≠ [] → (a, errs) ∈ m := by
  intro attrs
  induction attrs with
  | nil => intro m _ a errs ha; simp at ha
  | cons b rest ih =>
    intro m hm a errs ha hva herrs
    simp only [Validator.runAll] at hm
    cases hvb : Validator.validateAttr ((lookupL V.validations b).getD .nil)
        (values.lookup b) with
    | error e => rw [hvb] at hm; cases hm
    | ok errsb =>
      rw [hvb] at hm
      cases hr : Validator.runAll V values rest with
      | error e => rw [hr] at hm; cases hm
      | ok m2 =>
        rw [hr] at hm
        simp only [Except.ok.injEq] at hm
        subst hm
        rcases List.mem_cons.mp ha with hab | ha2
        · subst hab
          rw [hva] at hvb
          injection hvb with hvb
          subst hvb
          rw [if_neg (by simpa [List.isEmpty_iff] using herrs)]
          exact List.mem_cons_self _ _
        · have := ih m2 hr a errs ha2 hva herrs
          by_cases he : errsb.isEmpty
          · rwa [if_pos he]
          · rw [if_neg he]
            exact List.mem_cons_of_mem _ this

lemma lookupL_some {α : Type} {o : List (String × α)} {k : String} {v : α}
    (h : lookupL o k = some v) : (k, v) ∈ o := by
  unfold lookupL at h
  obtain ⟨p, hf, hv⟩ := Option.map_eq_some'.mp h
  have hm := List.mem_of_find?_eq_some hf
  have hb := List.find?_some hf
  obtain ⟨p1, p2⟩ := p
  simp only [beq_iff_eq] at hb
  subst hb
  subst hv
  exact hm

lemma Validator.validate_ok_some (V : Validator) (values : JSObj) (po : Bool)
    (m : List (String × List VError))
    (h : Validator.validate V values po = .ok (some m)) :
    Validator.runAll V values (V.selectedAttrs values po) = .ok m ∧ m ≠ [] := by
  cases hr : Validator.runAll V values (V.selectedAttrs values po) with
  | error e => simp [Validator.validate, hr] at h
  | ok errs =>
    simp only [Validator.validate, hr, Except.ok.injEq] at h
    by_cases he : errs.isEmpty
    · rw [if_pos he] at h; cases h
    · rw [if_neg he] at h
      injection h with h
      subst h
      exact ⟨rfl, by simpa [List.isEmpty_iff] using he⟩

/-- C6 (amended): provided no selected attribute's check throws,
`Validator.prototype.validate` checks every selected attribute (no
short-circuit on first failure) and invokes its callback exactly once —
the returned value — with no argument when no attribute produced
violations and otherwise with the error map listing exactly the
failing attributes, each with its violation list, in processing
order. -/
theorem validate_callback_exactly_once (V : Validator) (values : JSObj) (po : Bool)
    (h : ∀ a ∈ V.selectedAttrs values po, ∃ errs,
      Validator.validateAttr ((lookupL V.validations a).getD .nil)
        (values.lookup a) = .ok errs) :
    Validator.validate V values po =
      .ok (if (Validator.expectedMap V values (V.selectedAttrs values po)).isEmpty
           then none
           else some (Validator.expectedMap V values (V.selectedAttrs values po))) := by
  have hrun := Validator.runAll_expected V values (V.selectedAttrs values po) h
  simp [Validator.validate, hrun]

/-- C6 witness: a one-attribute optional schema validated against an
empty values bag. -/
def wV6 : Validator := ⟨[("age", .cons "type" (.str "integer") .nil)]⟩

theorem validate_callback_exactly_once_witness :
    Validator.validate wV6 .nil false =
      .ok (if (Validator.expectedMap wV6 .nil (wV6.selectedAttrs .nil false)).isEmpty
           then none
           else some (Validator.expectedMap wV6 .nil (wV6.selectedAttrs .nil false))) :=
  validate_callback_exactly_once wV6 .nil false (by
    intro a ha
    have hsel : wV6.selectedAttrs .nil false = ["age"] := by decide
    rw [hsel] at ha
    simp only [List.mem_singleton] at ha
    subst ha
    exact ⟨[], by decide⟩)

/-- C6 counterexample: a required `boolean` attribute with an explicit
`null` value makes `validate` throw a TypeError, so the callback is
never invoked (zero invocations, not exactly one). -/
def cV6 : Validator :=
  ⟨[("flag", .cons "type" (.str "boolean") (.cons "required" (.bool true) .nil))]⟩

theorem validate_throws_no_callback_cx :
    Validator.validate cV6 (.cons "flag" .null .nil) false =
      .error "TypeError: Cannot read property toString of null" := by decide

/-- C8: when `presentOnly` is true, `Validator.prototype.validate`
checks exactly the declared attributes present in the values bag: an
attribute absent from `values` is never reported (even a required
one), and every declared, present attribute whose check yields a
nonempty violation list is reported with it. -/
theorem validate_presentOnly_intersection (V : Validator) (values : JSObj)
    (m : List (String × List VError)) (a : String)
    (hr : Validator.validate V values true = .ok (some m)) :
    Validator.selectedAttrs V values false = V.validations.map Prod.fst ∧
    Validator.selectedAttrs V values true =
      (V.validations.map Prod.fst).filter (fun x => values.hasKey x) ∧
    (values.hasKey a = false → lookupL m a = none) ∧
    (∀ errs, a ∈ V.validations.map Prod.fst → values.hasKey a = true →
      Validator.validateAttr ((lookupL V.validations a).getD .nil)
        (values.lookup a) = .ok errs →
      errs ≠ [] → (a, errs) ∈ m) := by
  obtain ⟨hrun, -⟩ := Validator.validate_ok_some V values true m hr
  refine ⟨rfl, rfl, ?_, ?_⟩
  · intro hk
    cases hl : lookupL m a with
    | none => rfl
    | some e =>
      have hmem := lookupL_some hl
      obtain ⟨hsel, -, -⟩ := Validator.runAll_ok_mem V values _ m hrun (a, e) hmem
      simp only [Validator.selectedAttrs, if_pos] at hsel
      have := (List.mem_filter.mp hsel).2
      rw [hk] at this
      cases this
  · intro errs hks hhk hva herrs
    refine Validator.runAll_complete V values _ m hrun a errs ?_ hva herrs
    simp only [Validator.selectedAttrs]
    exact List.mem_filter.mpr ⟨hks, hhk⟩

/-- C8 witness: schema requiring `name` and `email`, values containing
only (a failing) `name`; in present-only mode the missing required
`email` is not reported. -/
def wV8 : Validator :=
  ⟨[("name", .cons "required" (.bool true) .nil),
    ("email", .cons "required" (.bool true) .nil)]⟩

/-- The values bag of the C8 witness. -/
def wVals8 : JSObj := .cons "name" .null .nil

theorem validate_presentOnly_intersection_witness :
    Validator.selectedAttrs wV8 wVals8 false = wV8.validations.map Prod.fst ∧
    Validator.selectedAttrs wV8 wVals8 true =
      (wV8.validations.map Prod.fst).filter (fun x => wVals8.hasKey x) ∧
    (wVals8.hasKey "email" = false →
      lookupL [("name", [(⟨"required", JSVal.null, []⟩ : VError)])] "email" = none) ∧
    (∀ errs, "email" ∈ wV8.validations.map Prod.fst →
      wVals8.hasKey "email" = true →
      Validator.validateAttr ((lookupL wV8.validations "email").getD .nil)
        (wVals8.lookup "email") = .ok errs →
      errs ≠ [] → ("email", errs) ∈ [("name", [(⟨"required", JSVal.null, []⟩ : VError)])]) :=
  validate_presentOnly_intersection wV8 wVals8 _ "email" (by decide)

/-- C4: an attribute whose ruleset has no `required` key and whose
value is absent, `null`, `undefined` or the empty string passes its
check with no violations — regardless of any other rules in its
ruleset — and is never reported in the aggregated error map. -/
theorem validate_optional_absent_ok (V : Validator) (values : JSObj) (po : Bool)
    (attr : String) (rs : JSObj)
    (hrs : lookupL V.validations attr = some rs)
    (hreq : rs.lookup "required" = none)
    (hv : values.lookup attr = none ∨ values.lookup attr = some .null ∨
          values.lookup attr = some .undef ∨ values.lookup attr = some (.str "")) :
    Validator.validateAttr rs (values.lookup attr) = .ok [] ∧
    ∀ m, Validator.validate V values po = .ok (some m) → lookupL m attr = none := by
  have hva : Validator.validateAttr rs (values.lookup attr) = .ok [] := by
    have hcv : coerceVal (values.lookup attr) = .null ∨
        coerceVal (values.lookup attr) = .str "" := by
      rcases hv with h | h | h | h <;> simp [h, coerceVal]
    simp only [Validator.validateAttr, hreq, Option.getD_none]
    rcases hcv with h | h <;> simp [h, truthy]
  refine ⟨hva, ?_⟩
  intro m hm
  obtain ⟨hrun, -⟩ := Validator.validate_ok_some V values po m hm
  cases hl : lookupL m attr with
  | none => rfl
  | some e =>
    have hmem := lookupL_some hl
    obtain ⟨-, h2, h3⟩ := Validator.runAll_ok_mem V values _ m hrun (attr, e) hmem
    rw [hrs] at h2
    simp only [Option.getD_some] at h2
    rw [hva] at h2
    injection h2 with h2
    exact absurd h2.symm h3

/-- C4 witness: optional integer `age` absent from the values bag. -/
def wV4 : Validator :=
  ⟨[("age", .cons "type" (.str "integer") .nil),
    ("name", .cons "required" (.bool true) .nil)]⟩

theorem validate_optional_absent_ok_witness :
    Validator.validateAttr (.cons "type" (.str "integer") .nil)
      (JSObj.nil.lookup "age") = .ok [] ∧
    ∀ m, Validator.validate wV4 .nil false = .ok (some m) →
      lookupL m "age" = none :=
  validate_optional_absent_ok wV4 .nil false "age" _ (by decide) (by decide)
    (by decide)

lemma Anchor.toErrors_eq_flat (v : JSVal) (rs : JSObj) :
    Anchor.toErrors v rs = Anchor.flatErrors v rs := by
  simpa using Anchor.toErrorsLoop_append v rs []

lemma Anchor.toErrors_type_split (v : JSVal) (rs : JSObj) (d : JSVal)
    (h : rs.lookup "type" = some d) :
    ∃ pre post, Anchor.toErrors v rs = pre ++ Anchor.matchType v d 0 50 ++ post := by
  rw [Anchor.toErrors_eq_flat]
  induction rs with
  | nil => simp [JSObj.lookup] at h
  | cons k a tl ih =>
    by_cases hk : (k == "type") = true
    · rw [JSObj.lookup, if_pos hk] at h
      injection h with h
      subst h
      refine ⟨[], Anchor.flatErrors v tl, ?_⟩
      simp only [beq_iff_eq] at hk
      subst hk
      simp [Anchor.flatErrors, Anchor.entryErrors]
    · rw [JSObj.lookup, if_neg hk] at h
      obtain ⟨pre, post, hsplit⟩ := ih h
      exact ⟨Anchor.entryErrors v k a ++ pre, post, by
        simp [Anchor.flatErrors, hsplit]⟩

lemma Anchor.matchType_boolean_fail (v : JSVal) (h : ∀ b, v ≠ .bool b) :
    Anchor.matchType v (.str "boolean") 0 50 = [⟨"type", v, []⟩] := by
  cases v <;> simp [Anchor.matchType, Anchor.rules]
  exact absurd rfl (h _)

lemma coerceVal_ne_undef (raw : Option JSVal) : coerceVal raw ≠ .undef := by
  cases raw with
  | none => simp [coerceVal]
  | some v => cases v <;> simp [coerceVal]

lemma jsTopToString_eq_some {v : JSVal} (h1 : v ≠ .null) (h2 : v ≠ .undef) :
    jsTopToString v = some (jsStr v) := by
  cases v with
  | null => exact absurd rfl h1
  | undef => exact absurd rfl h2
  | bool b => rfl
  | num n => rfl
  | str s => rfl
  | arr xs => rfl
  | obj o => rfl
  | func i => rfl

lemma Validator.runMatcher_ok (value : JSVal) (rs : JSObj)
    (hf : isFunction value = false) :
    Validator.runMatcher value rs = .ok ((Anchor.to value rs).getD []) := by
  simp [Validator.runMatcher, anchorCtor, hf]

lemma Validator.validateAttr_no_throw (rs : JSObj) (raw : Option JSVal)
    (hf : isFunction (coerceVal raw) = false)
    (hb : ¬(truthy ((rs.lookup "required").getD .undef) = true ∧
           rs.lookup "type" = some (.str "boolean") ∧ coerceVal raw = .null)) :
    ∃ errs, Validator.validateAttr rs raw = .ok errs := by
  by_cases c1 : (!truthy ((rs.lookup "required").getD JSVal.undef) &&
      (coerceVal raw == JSVal.null || coerceVal raw == JSVal.str "")) = true
  · exact ⟨[], by simp [Validator.validateAttr, c1]⟩
  by_cases c2 : (rs.lookup "type" == some (JSVal.str "text")) = true
  · exact ⟨[], by simp [Validator.validateAttr, c1, c2]⟩
  by_cases c3 : (truthy ((rs.lookup "required").getD JSVal.undef) &&
      rs.lookup "type" == some (JSVal.str "boolean")) = true
  · have hcond := c3
    simp only [Bool.and_eq_true, beq_iff_eq] at hcond
    have hnn : coerceVal raw ≠ JSVal.null := fun hn => hb ⟨hcond.1, hcond.2, hn⟩
    have hts := jsTopToString_eq_some hnn (coerceVal_ne_undef raw)
    by_cases c4 : ((jsStr (coerceVal raw) == "true") ||
        (jsStr (coerceVal raw) == "false")) = true
    · exact ⟨[], by simp [Validator.validateAttr, c1, c2, c3, hts, c4]⟩
    · exact ⟨(Anchor.to (coerceVal raw) rs).getD [], by
        simp [Validator.validateAttr, c1, c2, c3, hts, c4,
          Validator.runMatcher_ok _ _ hf]⟩
  · exact ⟨(Anchor.to (coerceVal raw) rs).getD [], by
      simp [Validator.validateAttr, c1, c2, c3, Validator.runMatcher_ok _ _ hf]⟩

/-- C1 (amended): `Validator.prototype.validate` never throws for
data-shape problems — every per-value failure is delivered only
through the single callback — provided that for every selected
attribute the (coerced) value is not a function and the attribute is
not a required `boolean`-typed attribute whose value is `null`
(including absent and `undefined` values, which are coerced to
`null`); outside this domain `validate` throws (a TypeError from
`null.toString()`, or the Anchor constructor's rejection of function
values). -/
theorem validate_no_throw (V : Validator) (values : JSObj) (po : Bool)
    (h : ∀ a ∈ V.selectedAttrs values po,
      isFunction (coerceVal (values.lookup a)) = false ∧
      ¬(truthy ((((lookupL V.validations a).getD .nil).lookup "required").getD .undef) = true ∧
        ((lookupL V.validations a).getD .nil).lookup "type" = some (.str "boolean") ∧
        coerceVal (values.lookup a) = .null)) :
    ∃ r, Validator.validate V values po = .ok r := by
  have hall : ∀ a ∈ V.selectedAttrs values po, ∃ errs,
      Validator.validateAttr ((lookupL V.validations a).getD .nil)
        (values.lookup a) = .ok errs :=
    fun a ha => Validator.validateAttr_no_throw _ _ (h a ha).1 (h a ha).2
  have hrun := Validator.runAll_expected V values (V.selectedAttrs values po) hall
  refine ⟨if (Validator.expectedMap V values (V.selectedAttrs values po)).isEmpty
          then none
          else some (Validator.expectedMap V values (V.selectedAttrs values po)), ?_⟩
  unfold Validator.validate
  rw [hrun]

/-- C1 witness: a required string attribute with a present string
value. -/
def wV1 : Validator :=
  ⟨[("name", .cons "type" (.str "string") (.cons "required" (.bool true) .nil))]⟩

theorem validate_no_throw_witness :
    ∃ r, Validator.validate wV1 (.cons "name" (.str "x") .nil) false = .ok r :=
  validate_no_throw wV1 (.cons "name" (.str "x") .nil) false (by
    intro a ha
    have hsel : wV1.selectedAttrs (.cons "name" (.str "x") .nil) false = ["name"] := by
      decide
    rw [hsel] at ha
    simp only [List.mem_singleton] at ha
    subst ha
    exact ⟨by decide, by decide⟩)

/-- C1 counterexample: a declared required `boolean` attribute absent
from the values bag (value treated as `null`) makes `validate` throw a
TypeError instead of resolving through the callback. -/
def cV1 : Validator :=
  ⟨[("active", .cons "type" (.str "boolean") (.cons "required" (.bool true) .nil))]⟩

theorem validate_required_boolean_absent_throws_cx :
    Validator.validate cV1 .nil false =
      .error "TypeError: Cannot read property toString of null" := by decide

/-- C5 (amended): for a ruleset declaring a truthy `required` and type
`boolean`, a value that has a string form (is not `null`/`undefined`)
is accepted — no error recorded, the Matcher skipped — exactly when
that string form is `"true"` or `"false"`; any other such value falls
through to the generic Matcher path (`anchor(value).to(...)`) and is
not accepted.  (A `null` value instead throws a TypeError — see the
counterexample.) -/
theorem validateAttr_required_boolean (rs : JSObj) (v : JSVal) (s : String)
    (hreq : truthy ((rs.lookup "required").getD .undef) = true)
    (hty : rs.lookup "type" = some (.str "boolean"))
    (hs : jsTopToString v = some s) :
    ((s = "true" ∨ s = "false") → Validator.validateAttr rs (some v) = .ok []) ∧
    (s ≠ "true" → s ≠ "false" →
      Validator.validateAttr rs (some v) = Validator.runMatcher v rs ∧
      Validator.validateAttr rs (some v) ≠ .ok []) := by
  have hvn : v ≠ .null := by intro h; subst h; simp [jsTopToString] at hs
  have hvu : v ≠ .undef := by intro h; subst h; simp [jsTopToString] at hs
  have hcv : coerceVal (some v) = v := by
    cases v <;> first | rfl | exact absurd rfl hvu
  have hjs : jsStr v = s := by
    rw [jsTopToString_eq_some hvn hvu] at hs
    injection hs
  constructor
  · intro hsor
    have c4 : ((s == "true") || (s == "false")) = true := by
      rcases hsor with h | h <;> simp [h]
    simp [Validator.validateAttr, hreq, hty, hcv, hs, c4]
  · intro h1 h2
    have c4 : ((s == "true") || (s == "false")) = false := by simp [h1, h2]
    have heq : Validator.validateAttr rs (some v) = Validator.runMatcher v rs := by
      simp [Validator.validateAttr, hreq, hty, hcv, hs, c4]
    refine ⟨heq, ?_⟩
    rw [heq]
    have hvb : ∀ b, v ≠ .bool b := by
      intro b hb
      subst hb
      cases b
      · exact h2 (by simpa [jsStr] using hjs.symm)
      · exact h1 (by simpa [jsStr] using hjs.symm)
    obtain ⟨pre, post, hsplit⟩ := Anchor.toErrors_type_split v rs _ hty
    rw [Anchor.matchType_boolean_fail v hvb] at hsplit
    have hne : Anchor.toErrors v rs ≠ [] := by rw [hsplit]; simp
    cases hfv : isFunction v with
    | true => simp [Validator.runMatcher, anchorCtor, hfv]
    | false =>
      rw [Validator.runMatcher_ok _ _ hfv]
      have hto : Anchor.to v rs = some (Anchor.toErrors v rs) := by
        simp [Anchor.to, List.isEmpty_iff, hne]
      rw [hto]
      simp only [Option.getD_some]
      intro hok
      injection hok with hok
      exact hne hok

/-- The required-boolean ruleset of the C5 witness and counterexample:
`type: boolean, required: true` (the spec §8 boolean special case). -/
def cRS5 : JSObj := .cons "type" (.str "boolean") (.cons "required" (.bool true) .nil)

theorem validateAttr_required_boolean_witness :
    (("false" = "true" ∨ "false" = "false") →
      Validator.validateAttr cRS5 (some (.str "false")) = .ok []) ∧
    ("false" ≠ "true" → "false" ≠ "false" →
      Validator.validateAttr cRS5 (some (.str "false")) =
        Validator.runMatcher (.str "false") cRS5 ∧
      Validator.validateAttr cRS5 (some (.str "false")) ≠ .ok []) :=
  validateAttr_required_boolean cRS5 (.str "false") "false" (by decide) (by decide)
    (by decide)

/-- C5 counterexample: on a required `boolean` attribute a `null` value
neither is accepted nor falls through to the generic Matcher path —
the check throws a TypeError instead. -/
theorem validateAttr_required_boolean_null_cx :
    Validator.validateAttr cRS5 (some .null) =
      .error "TypeError: Cannot read property toString of null" ∧
    ∀ l, Validator.validateAttr cRS5 (some .null) ≠ .ok l := by
  have h1 : Validator.validateAttr cRS5 (some .null) =
      .error "TypeError: Cannot read property toString of null" := by decide
  exact ⟨h1, fun l h => by rw [h1] at h; cases h⟩

lemma firstNonFunc_none (fs : JSObj) (h : ∀ p ∈ fs.toList, isFunction p.2 = true) :
    firstNonFunc fs = none := by
  induction fs with
  | nil => rfl
  | cons k v tl ih =>
    have hv : isFunction v = true := h (k, v) (by simp [JSObj.toList])
    rw [firstNonFunc, if_pos hv]
    exact ih (fun p hp => h p (by simp [JSObj.toList, hp]))

/-- C9 (amended): `define(name, fn)` registers `fn` under a string
`name` when `fn` is callable — silently overwriting any existing
binding of `name`, with no incompatibility check or error — and throws
a definition error when `fn` is not callable; the bulk form
`define(dict)` registers every entry when all the dictionary's values
are callable and otherwise throws a definition error naming the first
offending key.  The facade (with its updated rules dictionary) is
returned on success. -/
theorem define_behavior (rules : JSObj) :
    (∀ (n : String) (f : JSVal), isFunction f = true →
      Anchor.define (.str n) (some f) rules = .ok (rules.assign n f)) ∧
    (∀ (n : String) (d : JSVal), isFunction d = false →
      Anchor.define (.str n) (some d) rules =
        .error ("Definition error: \"" ++ n ++ "\" is not a valid definition.")) ∧
    (∀ fs : JSObj, (∀ p ∈ fs.toList, isFunction p.2 = true) →
      Anchor.define (.obj fs) none rules = .ok (rules.extend fs)) ∧
    (∀ (fs : JSObj) (k : String) (bad : JSVal), firstNonFunc fs = some (k, bad) →
      Anchor.define (.obj fs) none rules =
        .error ("Definition error: \"" ++ k ++ "\" does not have a definition")) := by
  refine ⟨?_, ?_, ?_, ?_⟩
  · intro n f hf
    simp [Anchor.define, isObjectJS, isStringJS, strOf, hf, jsStr]
  · intro n d hd
    simp [Anchor.define, isObjectJS, isStringJS, strOf, hd, jsStr]
  · intro fs hall
    simp [Anchor.define, isObjectJS, enumProps, firstNonFunc_none fs hall]
  · intro fs k bad hfirst
    simp [Anchor.define, isObjectJS, enumProps, hfirst]

theorem define_behavior_witness :
    Anchor.define (.str "custom") (some (.func 7)) .nil =
      .ok (JSObj.nil.assign "custom" (.func 7)) ∧
    Anchor.define (.str "bad") (some (.num 3)) .nil =
      .error "Definition error: \"bad\" is not a valid definition." ∧
    Anchor.define (.obj (.cons "t" (.func 1) .nil)) none .nil =
      .ok (JSObj.nil.extend (.cons "t" (.func 1) .nil)) ∧
    Anchor.define (.obj (.cons "u" (.num 0) .nil)) none .nil =
      .error "Definition error: \"u\" does not have a definition" :=
  ⟨(define_behavior .nil).1 "custom" (.func 7) (by decide),
   (define_behavior .nil).2.1 "bad" (.num 3) (by decide),
   (define_behavior .nil).2.2.1 (.cons "t" (.func 1) .nil) (by decide),
   (define_behavior .nil).2.2.2 (.cons "u" (.num 0) .nil) "u" (.num 0) (by decide)⟩

/-- C9 counterexample: `"string"` is already bound in the rules
dictionary, yet `define` neither checks the existing binding nor
throws — it silently overwrites and succeeds. -/
theorem define_rebind_no_throw_cx :
    Anchor.define (.str "string") (some (.func 1)) (.cons "string" (.func 0) .nil) =
      .ok (.cons "string" (.func 1) .nil) := by decide

/-- C10: the exported constructor `anchor(entity)` throws
`Anchor does not support functions yet!` on every function entity, and
on every non-function entity returns a facade whose `data` field is
the entity unchanged. -/
theorem anchorCtor_function_throws (entity : JSVal) :
    (isFunction entity = true →
      anchorCtor entity = .error "Anchor does not support functions yet!") ∧
    (isFunction entity = false → anchorCtor entity = .ok ⟨entity⟩) := by
  constructor <;> intro h <;> simp [anchorCtor, h]

theorem anchorCtor_function_throws_witness :
    anchorCtor (.func 0) = .error "Anchor does not support functions yet!" ∧
    anchorCtor (.str "a") = .ok ⟨.str "a"⟩ :=
  ⟨(anchorCtor_function_throws (.func 0)).1 rfl,
   (anchorCtor_function_throws (.str "a")).2 rfl⟩

lemma JSObj.app_nil (o : JSObj) : o.app .nil = o := by
  induction o with
  | nil => rfl
  | cons k v tl ih => rw [JSObj.app, ih]

lemma JSObj.app_assoc (o p q : JSObj) : (o.app p).app q = o.app (p.app q) := by
  induction o with
  | nil => rfl
  | cons k v tl ih => rw [JSObj.app, JSObj.app, JSObj.app, ih]

lemma JSObj.hasKey_app (o p : JSObj) (k : String) :
    (o.app p).hasKey k = (o.hasKey k || p.hasKey k) := by
  induction o with
  | nil => simp [JSObj.app, JSObj.hasKey, JSObj.lookup]
  | cons k1 v tl ih =>
    by_cases hk : (k1 == k) = true <;>
      simp [JSObj.app, JSObj.hasKey, JSObj.lookup, hk] <;>
      simpa [JSObj.hasKey] using ih

lemma JSObj.assign_fresh (o : JSObj) (k : String) (v : JSVal)
    (h : o.hasKey k = false) : o.assign k v = o.app (.cons k v .nil) := by
  induction o with
  | nil => rfl
  | cons k1 v1 tl ih =>
    simp only [JSObj.hasKey, JSObj.lookup] at h
    by_cases hk : (k1 == k) = true
    · rw [if_pos hk] at h; simp at h
    · rw [if_neg hk] at h
      rw [JSObj.assign, if_neg hk, JSObj.app, ih (by simpa [JSObj.hasKey] using h)]

lemma buildValidationLoop_app :
    ∀ o acc : JSObj,
      (∀ k ∈ keptKeys o, acc.hasKey k = false) →
      (keptKeys o).Nodup →
      buildValidationLoop o acc =
        acc.app (JSObj.ofList (o.toList.filterMap (fun p =>
          if schemaOnlyKey p.1 then none
          else if p.1 = "enum" then some ("in", p.2)
          else some (p.1, p.2)))) := by
  intro o
  induction o with
  | nil =>
    intro acc _ _
    simp [buildValidationLoop, JSObj.toList, JSObj.ofList, JSObj.app_nil]
  | cons prop v tl ih =>
    intro acc hfresh hnd
    by_cases hso : schemaOnlyKey prop = true
    · have hkk : keptKeys (.cons prop v tl) = keptKeys tl := by
        simp [keptKeys, JSObj.toList, List.filterMap_cons, hso]
      rw [hkk] at hfresh hnd
      simp only [buildValidationLoop, if_pos hso]
      rw [ih acc hfresh hnd]
      simp [JSObj.toList, List.filterMap_cons, hso]
    · have hkk : keptKeys (.cons prop v tl) =
          (if prop = "enum" then "in" else prop) :: keptKeys tl := by
        simp [keptKeys, JSObj.toList, List.filterMap_cons, hso]
      rw [hkk] at hfresh hnd
      have hstep : buildValidationLoop (.cons prop v tl) acc =
          buildValidationLoop tl
            (acc.assign (if prop = "enum" then "in" else prop) v) := by
        simp only [buildValidationLoop]
        congr 1
        rw [if_neg hso]
        by_cases hen : prop = "enum" <;> simp [hen]
      have hfk : acc.hasKey (if prop = "enum" then "in" else prop) = false :=
        hfresh _ (List.mem_cons_self _ _)
      rw [hstep, JSObj.assign_fresh acc _ v hfk]
      have hfresh2 : ∀ k ∈ keptKeys tl,
          ((acc.app (.cons (if prop = "enum" then "in" else prop) v .nil)).hasKey k) = false := by
        intro k hk
        rw [JSObj.hasKey_app]
        have h1 : acc.hasKey k = false := hfresh k (List.mem_cons_of_mem _ hk)
        have h2 : ((JSObj.cons (if prop = "enum" then "in" else prop) v .nil).hasKey k) = false := by
          have hne : (if prop = "enum" then "in" else prop) ≠ k := by
            intro heqk
            exact (List.nodup_cons.mp hnd).1 (heqk ▸ hk)
          simp [JSObj.hasKey, JSObj.lookup, hne]
        rw [h1, h2]
        rfl
      rw [ih _ hfresh2 (List.nodup_cons.mp hnd).2]
      rw [JSObj.app_assoc]
      have : (JSObj.cons (if prop = "enum" then "in" else prop) v .nil).app
          (JSObj.ofList (tl.toList.filterMap (fun p =>
            if schemaOnlyKey p.1 then none
            else if p.1 = "enum" then some ("in", p.2)
            else some (p.1, p.2)))) =
          JSObj.ofList ((JSObj.cons prop v tl).toList.filterMap (fun p =>
            if schemaOnlyKey p.1 then none
            else if p.1 = "enum" then some ("in", p.2)
            else some (p.1, p.2))) := by
        by_cases hen : prop = "enum" <;>
          simp [JSObj.app, JSObj.toList, List.filterMap_cons, hso, hen, JSObj.ofList]
      rw [this]

lemma buildValidation_eq (adef : JSObj) (hnd : (keptKeys adef).Nodup) :
    buildValidation adef =
      JSObj.ofList (adef.toList.filterMap (fun p =>
        if schemaOnlyKey p.1 then none
        else if p.1 = "enum" then some ("in", p.2)
        else some (p.1, p.2))) := by
  have h := buildValidationLoop_app adef .nil
    (fun k _ => by simp [JSObj.hasKey, JSObj.lookup]) hnd
  simpa [buildValidation, JSObj.app] using h

lemma buildValidations_go :
    ∀ (attrs : List (String × JSObj)) (acc : List (String × JSObj)),
      (∀ p ∈ attrs, (acc.any (fun q => q.1 == p.1)) = false) →
      (attrs.map Prod.fst).Nodup →
      attrs.foldl (fun vs p => assignL vs p.1 (buildValidation p.2)) acc =
        acc ++ attrs.map (fun p => (p.1, buildValidation p.2)) := by
  intro attrs
  induction attrs with
  | nil => intro acc _ _; simp
  | cons a rest ih =>
    intro acc hfresh hnd
    simp only [List.foldl_cons, List.map_cons]
    have ha : (acc.any (fun q => q.1 == a.1)) = false :=
      hfresh a (List.mem_cons_self _ _)
    have hassign : assignL acc a.1 (buildValidation a.2) =
        acc ++ [(a.1, buildValidation a.2)] := by
      simp only [assignL]
      rw [if_neg (by simp [ha])]
    rw [hassign]
    have hfresh2 : ∀ p ∈ rest,
        ((acc ++ [(a.1, buildValidation a.2)]).any (fun q => q.1 == p.1)) = false := by
      intro p hp
      rw [List.any_append]
      have h1 : (acc.any (fun q => q.1 == p.1)) = false :=
        hfresh p (List.mem_cons_of_mem _ hp)
      have h2 : (([(a.1, buildValidation a.2)]).any (fun q => q.1 == p.1)) = false := by
        have hne : a.1 ≠ p.1 := by
          intro he
          exact (List.nodup_cons.mp hnd).1 (he ▸ List.mem_map_of_mem Prod.fst hp)
        simp [hne]
      rw [h1, h2]
      rfl
    rw [ih _ hfresh2 (List.nodup_cons.mp hnd).2]
    simp

lemma lookupL_map_snd {α β : Type} (f : α → β) :
    ∀ (l : List (String × α)) (k : String),
      lookupL (l.map (fun p => (p.1, f p.2))) k = (lookupL l k).map f := by
  intro l k
  induction l with
  | nil => rfl
  | cons a tl ih =>
    by_cases hk : (a.1 == k) = true <;>
      simp [lookupL, List.find?_cons, hk] <;>
      simpa [lookupL] using ih

/-- C7: for attribute maps with distinct attribute names whose
definitions have no clashing sanitized keys, the initializer
(`Validator.prototype.initialize`, here `Validator.buildValidations`)
maps each attribute to its definition with every property copied
except the schema-only keys `defaultsTo`, `primaryKey`,
`autoIncrement`, `unique`, `index` and `columnName`, and with the
`enum` key rewritten to the `in` rule carrying the same argument. -/
theorem buildValidations_strips (attrs : List (String × JSObj)) (attr : String)
    (adef : JSObj)
    (hmem : lookupL attrs attr = some adef)
    (hattrs : (attrs.map Prod.fst).Nodup)
    (hdef : (keptKeys adef).Nodup) :
    lookupL (Validator.buildValidations attrs).validations attr =
      some (JSObj.ofList (adef.toList.filterMap (fun p =>
        if schemaOnlyKey p.1 then none
        else if p.1 = "enum" then some ("in", p.2)
        else some (p.1, p.2)))) := by
  have h1 := buildValidations_go attrs [] (by simp) hattrs
  have h2 : (Validator.buildValidations attrs).validations =
      attrs.foldl (fun vs p => assignL vs p.1 (buildValidation p.2)) [] := rfl
  rw [h2, h1, List.nil_append, lookupL_map_snd buildValidation, hmem,
    Option.map_some', buildValidation_eq adef hdef]

/-- The `name` attribute definition of the C7 witness: a schema-only
key (`defaultsTo`) and an `enum` key alongside ordinary rules. -/
def wDef7 : JSObj :=
  .cons "type" (.str "string")
    (.cons "length" (.obj (.cons "min" (.num 2) (.cons "max" (.num 5) .nil)))
      (.cons "defaultsTo" (.str "x")
        (.cons "enum" (.arr (.cons (.str "a") (.cons (.str "b") .nil))) .nil)))

/-- The attribute map of the C7 witness. -/
def wAttrs7 : List (String × JSObj) :=
  [("name", wDef7),
   ("email", .cons "type" (.str "string")
     (.cons "required" (.bool true) (.cons "unique" (.bool true) .nil)))]

theorem buildValidations_strips_witness :
    lookupL (Validator.buildValidations wAttrs7).validations "name" =
      some (JSObj.ofList (wDef7.toList.filterMap (fun p =>
        if schemaOnlyKey p.1 then none
        else if p.1 = "enum" then some ("in", p.2)
        else some (p.1, p.2)))) :=
  buildValidations_strips wAttrs7 "name" wDef7 (by decide) (by decide) (by decide)
